import Mathlib

/-!
Verification of the bounding-volume / frustum-culling primitives of
`crates/bevy_camera/src/primitives.rs`.

The Rust code computes over `f32`; this development embeds that arithmetic in
an ordered field. All definitions that do not touch `sqrt` are stated over an
arbitrary `LinearOrderedField α` (instantiated at `ℚ` for concrete
evaluations and at `ℝ` in general statements); the length/normalization
functions use `Real.sqrt` over `ℝ`. `Vec3A` of the source is the SIMD variant
of `Vec3` with identical componentwise semantics, so a single `Vec3` type
models both. A separate model with IEEE non-finite values (`F32`) is defined
at the end for the claim about NaN propagation in `Sphere::intersects_obb`.
-/

namespace Bevy

/-- Models `glam::Vec3` / `glam::Vec3A`: a 3-component vector. -/
structure Vec3 (α : Type) where
  x : α
  y : α
  z : α
deriving DecidableEq

/-- Models `glam::Vec4`: a 4-component vector. -/
structure Vec4 (α : Type) where
  x : α
  y : α
  z : α
  w : α
deriving DecidableEq

variable {α : Type} [LinearOrderedField α]

/-- Componentwise addition, as `glam` vector `+`. -/
def Vec3.add (a b : Vec3 α) : Vec3 α :=
  ⟨a.x + b.x, a.y + b.y, a.z + b.z⟩

instance : Add (Vec3 α) := ⟨Vec3.add⟩

/-- Componentwise subtraction, as `glam` vector `-`. -/
def Vec3.sub (a b : Vec3 α) : Vec3 α :=
  ⟨a.x - b.x, a.y - b.y, a.z - b.z⟩

instance : Sub (Vec3 α) := ⟨Vec3.sub⟩

/-- Scalar multiplication `c * v`, as in `0.5 * (maximum + minimum)`. -/
def Vec3.smul (c : α) (a : Vec3 α) : Vec3 α :=
  ⟨c * a.x, c * a.y, c * a.z⟩

instance : SMul α (Vec3 α) := ⟨Vec3.smul⟩

/-- Models `Vec3::dot` / `Vec3A::dot`. -/
def Vec3.dot (a b : Vec3 α) : α :=
  a.x * b.x + a.y * b.y + a.z * b.z

/-- Models `Vec3A::abs`: componentwise absolute value. -/
def Vec3.abs (a : Vec3 α) : Vec3 α :=
  ⟨|a.x|, |a.y|, |a.z|⟩

/-- Models `Vec3::min`: componentwise minimum. -/
def Vec3.min (a b : Vec3 α) : Vec3 α :=
  ⟨Min.min a.x b.x, Min.min a.y b.y, Min.min a.z b.z⟩

/-- Models `Vec3::max`: componentwise maximum. -/
def Vec3.max (a b : Vec3 α) : Vec3 α :=
  ⟨Max.max a.x b.x, Max.max a.y b.y, Max.max a.z b.z⟩

/-- Models `Vec3A::extend`: append a fourth component. -/
def Vec3.extend (a : Vec3 α) (w : α) : Vec4 α :=
  ⟨a.x, a.y, a.z, w⟩

/-- Models `Vec3A::splat`. -/
def Vec3.splat (c : α) : Vec3 α :=
  ⟨c, c, c⟩

/-- Componentwise division by a scalar, as `v / d` on `glam` vectors. -/
def Vec3.div_scalar (v : Vec3 α) (d : α) : Vec3 α :=
  ⟨v.x / d, v.y / d, v.z / d⟩

/-- Componentwise order on vectors (`a ≤ b` in every coordinate). -/
def Vec3.le (a b : Vec3 α) : Prop :=
  a.x ≤ b.x ∧ a.y ≤ b.y ∧ a.z ≤ b.z

instance (a b : Vec3 α) : Decidable (Vec3.le a b) := by
  unfold Vec3.le
  infer_instance

/-- Componentwise addition on `Vec4`. -/
def Vec4.add (a b : Vec4 α) : Vec4 α :=
  ⟨a.x + b.x, a.y + b.y, a.z + b.z, a.w + b.w⟩

instance : Add (Vec4 α) := ⟨Vec4.add⟩

/-- Componentwise subtraction on `Vec4`. -/
def Vec4.sub (a b : Vec4 α) : Vec4 α :=
  ⟨a.x - b.x, a.y - b.y, a.z - b.z, a.w - b.w⟩

instance : Sub (Vec4 α) := ⟨Vec4.sub⟩

/-- `v * c` for a `Vec4` and a scalar, as in `normal_d * length_recip`. -/
def Vec4.smul (a : Vec4 α) (c : α) : Vec4 α :=
  ⟨a.x * c, a.y * c, a.z * c, a.w * c⟩

/-- Models `Vec4::dot`. -/
def Vec4.dot (a b : Vec4 α) : α :=
  a.x * b.x + a.y * b.y + a.z * b.z + a.w * b.w

/-- Models `Vec4Swizzles::xyz`. -/
def Vec4.xyz (a : Vec4 α) : Vec3 α :=
  ⟨a.x, a.y, a.z⟩

/-- Models `glam::Mat3A`: a 3×3 matrix stored as three column vectors. -/
structure Mat3A (α : Type) where
  x_axis : Vec3 α
  y_axis : Vec3 α
  z_axis : Vec3 α
deriving DecidableEq

/-- Models `Mat3A::abs`: componentwise absolute value. -/
def Mat3A.abs (m : Mat3A α) : Mat3A α :=
  ⟨m.x_axis.abs, m.y_axis.abs, m.z_axis.abs⟩

/-- Matrix–vector product `m * v` (columns weighted by the components). -/
def Mat3A.mulVec (m : Mat3A α) (v : Vec3 α) : Vec3 α :=
  v.x • m.x_axis + v.y • m.y_axis + v.z • m.z_axis

/-- Models `glam::Mat4` through the only operation the source uses on it:
row extraction. The matrix is stored by its four rows. -/
structure Mat4 (α : Type) where
  row0 : Vec4 α
  row1 : Vec4 α
  row2 : Vec4 α
  row3 : Vec4 α
deriving DecidableEq

/-- Models `Mat4::row`. -/
def Mat4.row (m : Mat4 α) (i : Nat) : Vec4 α :=
  match i with
  | 0 => m.row0
  | 1 => m.row1
  | 2 => m.row2
  | _ => m.row3

/-- Models `glam::Affine3A`: a linear part and a translation. -/
structure Affine3A (α : Type) where
  matrix3 : Mat3A α
  translation : Vec3 α
deriving DecidableEq

/-- Models `Affine3A::transform_point3a`: `matrix3 * p + translation`. -/
def Affine3A.transform_point3a (t : Affine3A α) (p : Vec3 α) : Vec3 α :=
  t.matrix3.mulVec p + t.translation

/-- Models `HalfSpace`: the packed unit normal and signed distance. -/
structure HalfSpace (α : Type) where
  normal_d : Vec4 α
deriving DecidableEq

/-- Models `HalfSpace::normal`: the `xyz` part of the stored vector. -/
def HalfSpace.normal (hs : HalfSpace α) : Vec3 α :=
  hs.normal_d.xyz

/-- Models `HalfSpace::d`: the `w` part of the stored vector. -/
def HalfSpace.d (hs : HalfSpace α) : α :=
  hs.normal_d.w

/-- Models `Aabb`: center and half-extents. -/
structure Aabb (α : Type) where
  center : Vec3 α
  half_extents : Vec3 α
deriving DecidableEq

/-- Models `Aabb::from_min_max`. -/
def Aabb.from_min_max (minimum maximum : Vec3 α) : Aabb α :=
  { center := (0.5 : α) • (maximum + minimum)
    half_extents := (0.5 : α) • (maximum - minimum) }

/-- Models `Aabb::enclosing` on a finite list of points: `None` on the empty
list, otherwise the box of the componentwise min/max of the points. -/
def Aabb.enclosing (points : List (Vec3 α)) : Option (Aabb α) :=
  match points with
  | [] => none
  | p :: rest =>
    some (Aabb.from_min_max (rest.foldl Vec3.min p) (rest.foldl Vec3.max p))

/-- Models `Aabb::min`. -/
def Aabb.min (a : Aabb α) : Vec3 α :=
  a.center - a.half_extents

/-- Models `Aabb::max`. -/
def Aabb.max (a : Aabb α) : Vec3 α :=
  a.center + a.half_extents

/-- Models `Aabb::relative_radius`. -/
def Aabb.relative_radius (a : Aabb α) (p_normal : Vec3 α) (world_from_local : Mat3A α) : α :=
  (Vec3.mk (p_normal.dot world_from_local.x_axis)
           (p_normal.dot world_from_local.y_axis)
           (p_normal.dot world_from_local.z_axis)).abs.dot a.half_extents

/-- Models `Aabb::is_in_half_space`. -/
def Aabb.is_in_half_space (a : Aabb α) (half_space : HalfSpace α)
    (world_from_local : Affine3A α) : Bool :=
  let half_extents_world := world_from_local.matrix3.abs.mulVec a.half_extents.abs
  let p_normal := half_space.normal
  let r := half_extents_world.dot p_normal.abs
  let aabb_center_world := world_from_local.transform_point3a a.center
  let signed_distance := p_normal.dot aabb_center_world + half_space.d
  decide (signed_distance > r)

/-- Models `Sphere`. -/
structure Sphere (α : Type) where
  center : Vec3 α
  radius : α
deriving DecidableEq

/-- Models `impl From<Sphere> for Aabb`. -/
def Aabb.from_sphere (sphere : Sphere α) : Aabb α :=
  { center := sphere.center
    half_extents := Vec3.splat sphere.radius }

/-- Models `Frustum`: six half-spaces indexed 0..5 in the order
left, right, top, bottom, near, far. -/
structure Frustum (α : Type) where
  half_spaces : Fin 6 → HalfSpace α

/-- Models `Frustum::intersects_sphere`: the sphere is tested against the
first five half-spaces, and the sixth one only when `intersect_far` holds;
it is rejected as soon as one tested half-space excludes it. -/
def Frustum.intersects_sphere (f : Frustum α) (sphere : Sphere α)
    (intersect_far : Bool) : Bool :=
  let sphere_center := sphere.center.extend 1
  let max := if intersect_far then 6 else 5
  !(((List.finRange 6).take max).any (fun i =>
      decide ((f.half_spaces i).normal_d.dot sphere_center + sphere.radius ≤ 0)))

/-- Models `Frustum::intersects_obb`: every half-space is tested except that
index 4 is skipped when `intersect_near` is false and index 5 is skipped when
`intersect_far` is false; a tested half-space excludes the box when the
signed center distance plus the relative radius is nonpositive. -/
def Frustum.intersects_obb (f : Frustum α) (aabb : Aabb α)
    (world_from_local : Affine3A α) (intersect_near : Bool)
    (intersect_far : Bool) : Bool :=
  let aabb_center_world := (world_from_local.transform_point3a aabb.center).extend 1
  !((List.finRange 6).any (fun idx =>
      if idx.val = 4 ∧ intersect_near = false then false
      else if idx.val = 5 ∧ intersect_far = false then false
      else
        let p_normal := (f.half_spaces idx).normal
        let relative_radius := aabb.relative_radius p_normal world_from_local.matrix3
        decide ((f.half_spaces idx).normal_d.dot aabb_center_world + relative_radius ≤ 0)))

/-- Models `Frustum::contains_aabb`: the box must be inside all six
half-spaces. -/
def Frustum.contains_aabb (f : Frustum α) (aabb : Aabb α)
    (world_from_local : Affine3A α) : Bool :=
  (List.finRange 6).all (fun i => aabb.is_in_half_space (f.half_spaces i) world_from_local)

/-- Models `Vec3A::length`: the Euclidean norm, over `ℝ`. -/
noncomputable def Vec3.length (v : Vec3 ℝ) : ℝ :=
  Real.sqrt (v.dot v)

/-- Models `HalfSpace::new`: scale the packed vector by the reciprocal length
of its `xyz` part. -/
noncomputable def HalfSpace.new (normal_d : Vec4 ℝ) : HalfSpace ℝ :=
  ⟨normal_d.smul (Vec3.length normal_d.xyz)⁻¹⟩

/-- Models `Frustum::from_clip_from_world_no_far`: indices 0..4 are built
from `row3 ± row(i/2)` (`+` when `i` is even and `i ≠ 4`), index 5 is left
at the default (zero) half-space. -/
noncomputable def Frustum.from_clip_from_world_no_far (clip_from_world : Mat4 ℝ) : Frustum ℝ :=
  let row3 := clip_from_world.row 3
  { half_spaces := fun i =>
      if i.val < 5 then
        let row := clip_from_world.row (i.val / 2)
        HalfSpace.new (if i.val % 2 = 0 ∧ i.val ≠ 4 then row3 + row else row3 - row)
      else { normal_d := ⟨0, 0, 0, 0⟩ } }

/-- Models `Frustum::from_clip_from_world`: as the no-far variant, with
index 5 replaced by the half-space built from row 2. -/
noncomputable def Frustum.from_clip_from_world (clip_from_world : Mat4 ℝ) : Frustum ℝ :=
  let f := Frustum.from_clip_from_world_no_far clip_from_world
  { half_spaces := fun i =>
      if i.val = 5 then HalfSpace.new (clip_from_world.row 2) else f.half_spaces i }

/-- Models `Sphere::intersects_obb` over exact reals (the IEEE non-finite
behaviour at `d = 0` is modelled separately by the `F32` development). -/
noncomputable def Sphere.intersects_obb (s : Sphere ℝ) (aabb : Aabb ℝ)
    (world_from_local : Affine3A ℝ) : Bool :=
  let aabb_center_world := world_from_local.transform_point3a aabb.center
  let v := aabb_center_world - s.center
  let d := v.length
  let relative_radius := aabb.relative_radius (v.div_scalar d) world_from_local.matrix3
  decide (d < s.radius + relative_radius)

/-! ### Basic algebraic lemmas about the vector operations -/

@[simp] theorem Vec3.add_def (a b : Vec3 α) :
    a + b = ⟨a.x + b.x, a.y + b.y, a.z + b.z⟩ := rfl

@[simp] theorem Vec3.sub_def (a b : Vec3 α) :
    a - b = ⟨a.x - b.x, a.y - b.y, a.z - b.z⟩ := rfl

@[simp] theorem Vec3.smul_def (c : α) (a : Vec3 α) :
    c • a = ⟨c * a.x, c * a.y, c * a.z⟩ := rfl

@[simp] theorem Vec4.add4_def (a b : Vec4 α) :
    a + b = ⟨a.x + b.x, a.y + b.y, a.z + b.z, a.w + b.w⟩ := rfl

@[simp] theorem Vec4.sub4_def (a b : Vec4 α) :
    a - b = ⟨a.x - b.x, a.y - b.y, a.z - b.z, a.w - b.w⟩ := rfl

theorem Vec3.dot_comm (a b : Vec3 α) : a.dot b = b.dot a := by
  simp only [Vec3.dot]
  ring

theorem Vec3.dot_add_right (n u v : Vec3 α) : n.dot (u + v) = n.dot u + n.dot v := by
  show n.dot (u.add v) = _
  simp only [Vec3.dot, Vec3.add]
  ring

theorem Vec3.dot_smul_right (n v : Vec3 α) (c : α) : n.dot (c • v) = c * n.dot v := by
  show n.dot (Vec3.smul c v) = _
  simp only [Vec3.dot, Vec3.smul]
  ring

theorem Vec3.dot_smul_left (n v : Vec3 α) (c : α) : (c • n).dot v = c * n.dot v := by
  show (Vec3.smul c n).dot v = _
  simp only [Vec3.dot, Vec3.smul]
  ring

/-- The triangle inequality for the componentwise dot product:
`|n ⋅ v| ≤ |v| ⋅ |n|` with componentwise absolute values. -/
theorem Vec3.abs_dot_le (n v : Vec3 α) : |n.dot v| ≤ v.abs.dot n.abs := by
  simp only [Vec3.dot, Vec3.abs]
  calc |n.x * v.x + n.y * v.y + n.z * v.z|
      ≤ |n.x * v.x + n.y * v.y| + |n.z * v.z| := abs_add _ _
    _ ≤ |n.x * v.x| + |n.y * v.y| + |n.z * v.z| :=
        add_le_add_right (abs_add _ _) _
    _ = |v.x| * |n.x| + |v.y| * |n.y| + |v.z| * |n.z| := by
        rw [abs_mul, abs_mul, abs_mul]
        ring

/-- Dotting a packed half-space vector with a homogeneous point splits into
the normal part and the distance part. -/
theorem HalfSpace.normal_d_dot_extend (hs : HalfSpace α) (p : Vec3 α) :
    hs.normal_d.dot (p.extend 1) = hs.normal.dot p + hs.d := by
  simp only [Vec4.dot, Vec3.extend, Vec3.dot, HalfSpace.normal, HalfSpace.d, Vec4.xyz]
  ring

/-- Expansion of the matrix–vector product under a dot product. -/
theorem Vec3.dot_mulVec (n : Vec3 α) (m : Mat3A α) (v : Vec3 α) :
    n.dot (m.mulVec v) =
      v.x * n.dot m.x_axis + v.y * n.dot m.y_axis + v.z * n.dot m.z_axis := by
  simp only [Mat3A.mulVec, Vec3.dot_add_right, Vec3.dot_smul_right]

/-- The conservative world-space radius used by `is_in_half_space`,
written out through the three columns. -/
theorem abs_mulVec_dot (m : Mat3A α) (he n : Vec3 α) :
    (m.abs.mulVec he.abs).dot n.abs =
      |he.x| * (m.x_axis.abs.dot n.abs) + |he.y| * (m.y_axis.abs.dot n.abs) +
        |he.z| * (m.z_axis.abs.dot n.abs) := by
  simp only [Mat3A.abs, Mat3A.mulVec]
  have hx : (Vec3.abs he).x = |he.x| := rfl
  have hy : (Vec3.abs he).y = |he.y| := rfl
  have hz : (Vec3.abs he).z = |he.z| := rfl
  rw [show ((Vec3.abs he).x • m.x_axis.abs + (Vec3.abs he).y • m.y_axis.abs +
      (Vec3.abs he).z • m.z_axis.abs).dot n.abs =
      n.abs.dot ((Vec3.abs he).x • m.x_axis.abs + (Vec3.abs he).y • m.y_axis.abs +
        (Vec3.abs he).z • m.z_axis.abs) from Vec3.dot_comm _ _]
  rw [Vec3.dot_add_right, Vec3.dot_add_right, Vec3.dot_smul_right, Vec3.dot_smul_right,
    Vec3.dot_smul_right, hx, hy, hz]
  rw [Vec3.dot_comm n.abs m.x_axis.abs, Vec3.dot_comm n.abs m.y_axis.abs,
    Vec3.dot_comm n.abs m.z_axis.abs]

/-- The oriented-box relative radius is bounded in magnitude by the
conservative world-space radius of `is_in_half_space`. -/
theorem abs_relative_radius_le (a : Aabb α) (n : Vec3 α) (m : Mat3A α) :
    |a.relative_radius n m| ≤ (m.abs.mulVec a.half_extents.abs).dot n.abs := by
  have hx := Vec3.abs_dot_le n m.x_axis
  have hy := Vec3.abs_dot_le n m.y_axis
  have hz := Vec3.abs_dot_le n m.z_axis
  have hx0 : (0 : α) ≤ m.x_axis.abs.dot n.abs := le_trans (abs_nonneg _) hx
  have hy0 : (0 : α) ≤ m.y_axis.abs.dot n.abs := le_trans (abs_nonneg _) hy
  have hz0 : (0 : α) ≤ m.z_axis.abs.dot n.abs := le_trans (abs_nonneg _) hz
  rw [abs_mulVec_dot]
  simp only [Aabb.relative_radius, Vec3.dot, Vec3.abs]
  calc |(|n.dot m.x_axis|) * a.half_extents.x + (|n.dot m.y_axis|) * a.half_extents.y +
        (|n.dot m.z_axis|) * a.half_extents.z|
      ≤ |(|n.dot m.x_axis|) * a.half_extents.x + (|n.dot m.y_axis|) * a.half_extents.y| +
          |(|n.dot m.z_axis|) * a.half_extents.z| := abs_add _ _
    _ ≤ |(|n.dot m.x_axis|) * a.half_extents.x| + |(|n.dot m.y_axis|) * a.half_extents.y| +
          |(|n.dot m.z_axis|) * a.half_extents.z| := add_le_add_right (abs_add _ _) _
    _ = |n.dot m.x_axis| * |a.half_extents.x| + |n.dot m.y_axis| * |a.half_extents.y| +
          |n.dot m.z_axis| * |a.half_extents.z| := by
        rw [abs_mul, abs_mul, abs_mul, abs_abs, abs_abs, abs_abs]
    _ ≤ |a.half_extents.x| * (m.x_axis.abs.dot n.abs) +
          |a.half_extents.y| * (m.y_axis.abs.dot n.abs) +
          |a.half_extents.z| * (m.z_axis.abs.dot n.abs) := by
        have t1 : |n.dot m.x_axis| * |a.half_extents.x| ≤
            |a.half_extents.x| * (m.x_axis.abs.dot n.abs) := by
          rw [mul_comm]
          exact mul_le_mul_of_nonneg_left hx (abs_nonneg _)
        have t2 : |n.dot m.y_axis| * |a.half_extents.y| ≤
            |a.half_extents.y| * (m.y_axis.abs.dot n.abs) := by
          rw [mul_comm]
          exact mul_le_mul_of_nonneg_left hy (abs_nonneg _)
        have t3 : |n.dot m.z_axis| * |a.half_extents.z| ≤
            |a.half_extents.z| * (m.z_axis.abs.dot n.abs) := by
          rw [mul_comm]
          exact mul_le_mul_of_nonneg_left hz (abs_nonneg _)
        linarith

/-- Bounding the projection of a transformed perturbation that stays within
the half-extents: the conservative radius dominates it. -/
theorem mulVec_dot_bound (m : Mat3A α) (n : Vec3 α) (p he : Vec3 α)
    (hx : |p.x| ≤ |he.x|) (hy : |p.y| ≤ |he.y|) (hz : |p.z| ≤ |he.z|) :
    |n.dot (m.mulVec p)| ≤ (m.abs.mulVec he.abs).dot n.abs := by
  rw [Vec3.dot_mulVec, abs_mulVec_dot]
  have bx := Vec3.abs_dot_le n m.x_axis
  have by' := Vec3.abs_dot_le n m.y_axis
  have bz := Vec3.abs_dot_le n m.z_axis
  calc |p.x * n.dot m.x_axis + p.y * n.dot m.y_axis + p.z * n.dot m.z_axis|
      ≤ |p.x * n.dot m.x_axis + p.y * n.dot m.y_axis| + |p.z * n.dot m.z_axis| :=
        abs_add _ _
    _ ≤ |p.x * n.dot m.x_axis| + |p.y * n.dot m.y_axis| + |p.z * n.dot m.z_axis| :=
        add_le_add_right (abs_add _ _) _
    _ = |p.x| * |n.dot m.x_axis| + |p.y| * |n.dot m.y_axis| + |p.z| * |n.dot m.z_axis| := by
        rw [abs_mul, abs_mul, abs_mul]
    _ ≤ |he.x| * (m.x_axis.abs.dot n.abs) + |he.y| * (m.y_axis.abs.dot n.abs) +
          |he.z| * (m.z_axis.abs.dot n.abs) := by
        have t1 : |p.x| * |n.dot m.x_axis| ≤ |he.x| * (m.x_axis.abs.dot n.abs) :=
          mul_le_mul hx bx (abs_nonneg _) (abs_nonneg _)
        have t2 : |p.y| * |n.dot m.y_axis| ≤ |he.y| * (m.y_axis.abs.dot n.abs) :=
          mul_le_mul hy by' (abs_nonneg _) (abs_nonneg _)
        have t3 : |p.z| * |n.dot m.z_axis| ≤ |he.z| * (m.z_axis.abs.dot n.abs) :=
          mul_le_mul hz bz (abs_nonneg _) (abs_nonneg _)
        linarith

/-- Unfolding characterization of `Aabb::is_in_half_space`. -/
theorem is_in_half_space_eq_true_iff (a : Aabb α) (hs : HalfSpace α) (t : Affine3A α) :
    a.is_in_half_space hs t = true ↔
      (t.matrix3.abs.mulVec a.half_extents.abs).dot hs.normal.abs <
        hs.normal.dot (t.transform_point3a a.center) + hs.d := by
  simp only [Aabb.is_in_half_space, decide_eq_true_eq, gt_iff_lt]

/-- Membership in the prefix of the six plane indices that
`intersects_sphere` tests. -/
theorem mem_take_if_far (far : Bool) : ∀ i : Fin 6,
    (i ∈ (List.finRange 6).take (if far then 6 else 5)) ↔ (i.val < 5 ∨ far = true) := by
  cases far <;> decide

/-! ### Claim theorems -/

/-- C9: `From<Sphere> for Aabb` keeps the sphere's center, splats the radius
into the half-extents, and hence spans `2 * radius` along every axis. -/
theorem from_sphere_cube (s : Sphere α) :
    (Aabb.from_sphere s).center = s.center ∧
    (Aabb.from_sphere s).half_extents = Vec3.splat s.radius ∧
    (Aabb.from_sphere s).max - (Aabb.from_sphere s).min = Vec3.splat (2 * s.radius) := by
  refine ⟨rfl, rfl, ?_⟩
  simp only [Aabb.max, Aabb.min, Aabb.from_sphere, Vec3.splat, Vec3.add_def, Vec3.sub_def]
  congr 1 <;> ring

/-- C6: `Aabb::is_in_half_space` returns true exactly when the signed
distance of the transformed box center strictly exceeds the conservative
radius `r = (|M| * |half_extents|) ⋅ |normal|`; consequently it returns false
whenever some point of the transformed box lies on or beyond the plane. -/
theorem is_in_half_space_spec (a : Aabb α) (hs : HalfSpace α) (t : Affine3A α) :
    (a.is_in_half_space hs t = true ↔
      (t.matrix3.abs.mulVec a.half_extents.abs).dot hs.normal.abs <
        hs.normal.dot (t.transform_point3a a.center) + hs.d) ∧
    (∀ e : Vec3 α, |e.x| ≤ 1 → |e.y| ≤ 1 → |e.z| ≤ 1 →
      hs.normal.dot (t.transform_point3a
        (a.center + Vec3.mk (e.x * a.half_extents.x) (e.y * a.half_extents.y)
          (e.z * a.half_extents.z))) + hs.d ≤ 0 →
      a.is_in_half_space hs t = false) := by
  have hiff := is_in_half_space_eq_true_iff a hs t
  refine ⟨hiff, ?_⟩
  intro e hex hey hez houter
  cases hres : a.is_in_half_space hs t with
  | false => rfl
  | true =>
  exfalso
  have htrue := hiff.mp hres
  have hΔx : |e.x * a.half_extents.x| ≤ |a.half_extents.x| := by
    rw [abs_mul]
    calc |e.x| * |a.half_extents.x| ≤ 1 * |a.half_extents.x| :=
          mul_le_mul_of_nonneg_right hex (abs_nonneg _)
      _ = |a.half_extents.x| := one_mul _
  have hΔy : |e.y * a.half_extents.y| ≤ |a.half_extents.y| := by
    rw [abs_mul]
    calc |e.y| * |a.half_extents.y| ≤ 1 * |a.half_extents.y| :=
          mul_le_mul_of_nonneg_right hey (abs_nonneg _)
      _ = |a.half_extents.y| := one_mul _
  have hΔz : |e.z * a.half_extents.z| ≤ |a.half_extents.z| := by
    rw [abs_mul]
    calc |e.z| * |a.half_extents.z| ≤ 1 * |a.half_extents.z| :=
          mul_le_mul_of_nonneg_right hez (abs_nonneg _)
      _ = |a.half_extents.z| := one_mul _
  have hbound := mulVec_dot_bound t.matrix3 hs.normal
    (Vec3.mk (e.x * a.half_extents.x) (e.y * a.half_extents.y) (e.z * a.half_extents.z))
    a.half_extents hΔx hΔy hΔz
  have hdotsplit : hs.normal.dot (t.transform_point3a
      (a.center + Vec3.mk (e.x * a.half_extents.x) (e.y * a.half_extents.y)
        (e.z * a.half_extents.z))) =
      hs.normal.dot (t.transform_point3a a.center) +
        hs.normal.dot (t.matrix3.mulVec (Vec3.mk (e.x * a.half_extents.x)
          (e.y * a.half_extents.y) (e.z * a.half_extents.z))) := by
    simp only [Affine3A.transform_point3a, Mat3A.mulVec, Vec3.add_def, Vec3.smul_def,
      Vec3.dot]
    ring
  rw [hdotsplit] at houter
  have habs := neg_abs_le (hs.normal.dot (t.matrix3.mulVec
    (Vec3.mk (e.x * a.half_extents.x) (e.y * a.half_extents.y) (e.z * a.half_extents.z))))
  linarith

/-- Concrete check for C6: the unit box at the origin touches the plane
`x = 0` (a point of the box lies on it), so `is_in_half_space` reports false. -/
theorem is_in_half_space_spec_witness :
    Aabb.is_in_half_space
      ({ center := ⟨0, 0, 0⟩, half_extents := ⟨1, 1, 1⟩ } : Aabb ℚ)
      { normal_d := ⟨1, 0, 0, 0⟩ }
      { matrix3 := ⟨⟨1, 0, 0⟩, ⟨0, 1, 0⟩, ⟨0, 0, 1⟩⟩, translation := ⟨0, 0, 0⟩ } = false :=
  (is_in_half_space_spec
      ({ center := ⟨0, 0, 0⟩, half_extents := ⟨1, 1, 1⟩ } : Aabb ℚ)
      { normal_d := ⟨1, 0, 0, 0⟩ }
      { matrix3 := ⟨⟨1, 0, 0⟩, ⟨0, 1, 0⟩, ⟨0, 0, 1⟩⟩, translation := ⟨0, 0, 0⟩ }).2
    ⟨-1, 0, 0⟩ (by norm_num) (by norm_num) (by norm_num)
    (by norm_num [HalfSpace.normal, HalfSpace.d, Vec4.xyz, Vec3.dot,
      Affine3A.transform_point3a, Mat3A.mulVec])

/-- C4: `Frustum::intersects_sphere` tests the first five half-spaces always
and the far one (index 5) only when `intersect_far` holds, and returns false
exactly when some tested half-space has
`dot(normal, center) + d + radius ≤ 0`. -/
theorem intersects_sphere_spec (f : Frustum α) (s : Sphere α) (intersect_far : Bool) :
    f.intersects_sphere s intersect_far = false ↔
      ∃ i : Fin 6, (i.val < 5 ∨ intersect_far = true) ∧
        (f.half_spaces i).normal_d.dot (s.center.extend 1) + s.radius ≤ 0 := by
  simp only [Frustum.intersects_sphere, Bool.not_eq_false', List.any_eq_true,
    decide_eq_true_eq]
  constructor
  · rintro ⟨i, hmem, hcond⟩
    exact ⟨i, (mem_take_if_far intersect_far i).mp hmem, hcond⟩
  · rintro ⟨i, hi, hcond⟩
    exact ⟨i, (mem_take_if_far intersect_far i).mpr hi, hcond⟩

/-- C5: `Frustum::intersects_obb` iterates the six half-spaces, skipping
index 4 exactly when `intersect_near` is false and index 5 exactly when
`intersect_far` is false, and returns false exactly when some non-skipped
half-space has signed center distance plus relative radius `≤ 0`. -/
theorem intersects_obb_spec (f : Frustum α) (a : Aabb α) (t : Affine3A α)
    (intersect_near intersect_far : Bool) :
    f.intersects_obb a t intersect_near intersect_far = false ↔
      ∃ i : Fin 6,
        (i.val = 4 → intersect_near = true) ∧ (i.val = 5 → intersect_far = true) ∧
        (f.half_spaces i).normal_d.dot ((t.transform_point3a a.center).extend 1) +
          a.relative_radius (f.half_spaces i).normal t.matrix3 ≤ 0 := by
  have hper : ∀ i : Fin 6,
      ((if i.val = 4 ∧ intersect_near = false then false
        else if i.val = 5 ∧ intersect_far = false then false
        else decide ((f.half_spaces i).normal_d.dot
            ((t.transform_point3a a.center).extend 1) +
          a.relative_radius (f.half_spaces i).normal t.matrix3 ≤ 0)) = true) ↔
      ((i.val = 4 → intersect_near = true) ∧ (i.val = 5 → intersect_far = true) ∧
        (f.half_spaces i).normal_d.dot ((t.transform_point3a a.center).extend 1) +
          a.relative_radius (f.half_spaces i).normal t.matrix3 ≤ 0) := by
    intro i
    split_ifs with h1 h2
    · simp [h1.1, h1.2]
    · simp [h2.1, h2.2]
    · rw [decide_eq_true_eq]
      constructor
      · intro hc
        refine ⟨?_, ?_, hc⟩
        · intro h4
          cases hnear : intersect_near
          · exact absurd ⟨h4, hnear⟩ h1
          · rfl
        · intro h5
          cases hfar : intersect_far
          · exact absurd ⟨h5, hfar⟩ h2
          · rfl
      · rintro ⟨-, -, hc⟩
        exact hc
  simp only [Frustum.intersects_obb, Bool.not_eq_false', List.any_eq_true]
  constructor
  · rintro ⟨i, _, hcond⟩
    exact ⟨i, (hper i).mp hcond⟩
  · rintro ⟨i, hi⟩
    exact ⟨i, List.mem_finRange i, (hper i).mpr hi⟩

/-- C2: full containment is stronger than intersection — whenever
`Frustum::contains_aabb` accepts a box, `Frustum::intersects_obb` with both
the near and the far plane included accepts it as well. -/
theorem contains_aabb_imp_intersects_obb (f : Frustum α) (a : Aabb α) (t : Affine3A α)
    (h : f.contains_aabb a t = true) :
    f.intersects_obb a t true true = true := by
  simp only [Frustum.contains_aabb, List.all_eq_true] at h
  simp only [Frustum.intersects_obb, Bool.not_eq_true', List.any_eq_false]
  intro i _
  have hin := h i (List.mem_finRange i)
  rw [is_in_half_space_eq_true_iff] at hin
  have habs := abs_relative_radius_le a (f.half_spaces i).normal t.matrix3
  have hneg := neg_abs_le (a.relative_radius (f.half_spaces i).normal t.matrix3)
  simp only [show ((i.val = 4 ∧ (true : Bool) = false) = False) by simp,
    show ((i.val = 5 ∧ (true : Bool) = false) = False) by simp, if_false]
  rw [HalfSpace.normal_d_dot_extend]
  rw [decide_eq_true_eq, not_le]
  linarith

/-- Concrete check for C2: the unit box at the origin is contained in the
axis-aligned frustum given by the six planes `±x, ±y, ±z ≤ 10`, so it also
intersects it. -/
theorem contains_aabb_imp_intersects_obb_witness :
    (Frustum.contains_aabb
        ({ half_spaces := fun i =>
            if i.val = 0 then { normal_d := ⟨1, 0, 0, 10⟩ }
            else if i.val = 1 then { normal_d := ⟨-1, 0, 0, 10⟩ }
            else if i.val = 2 then { normal_d := ⟨0, 1, 0, 10⟩ }
            else if i.val = 3 then { normal_d := ⟨0, -1, 0, 10⟩ }
            else if i.val = 4 then { normal_d := ⟨0, 0, 1, 10⟩ }
            else { normal_d := ⟨0, 0, -1, 10⟩ } } : Frustum ℚ)
        { center := ⟨0, 0, 0⟩, half_extents := ⟨1, 1, 1⟩ }
        { matrix3 := ⟨⟨1, 0, 0⟩, ⟨0, 1, 0⟩, ⟨0, 0, 1⟩⟩, translation := ⟨0, 0, 0⟩ } = true) ∧
    (Frustum.intersects_obb
        ({ half_spaces := fun i =>
            if i.val = 0 then { normal_d := ⟨1, 0, 0, 10⟩ }
            else if i.val = 1 then { normal_d := ⟨-1, 0, 0, 10⟩ }
            else if i.val = 2 then { normal_d := ⟨0, 1, 0, 10⟩ }
            else if i.val = 3 then { normal_d := ⟨0, -1, 0, 10⟩ }
            else if i.val = 4 then { normal_d := ⟨0, 0, 1, 10⟩ }
            else { normal_d := ⟨0, 0, -1, 10⟩ } } : Frustum ℚ)
        { center := ⟨0, 0, 0⟩, half_extents := ⟨1, 1, 1⟩ }
        { matrix3 := ⟨⟨1, 0, 0⟩, ⟨0, 1, 0⟩, ⟨0, 0, 1⟩⟩, translation := ⟨0, 0, 0⟩ }
        true true = true) := by
  have hc : Frustum.contains_aabb
      ({ half_spaces := fun i =>
          if i.val = 0 then { normal_d := ⟨1, 0, 0, 10⟩ }
          else if i.val = 1 then { normal_d := ⟨-1, 0, 0, 10⟩ }
          else if i.val = 2 then { normal_d := ⟨0, 1, 0, 10⟩ }
          else if i.val = 3 then { normal_d := ⟨0, -1, 0, 10⟩ }
          else if i.val = 4 then { normal_d := ⟨0, 0, 1, 10⟩ }
          else { normal_d := ⟨0, 0, -1, 10⟩ } } : Frustum ℚ)
      { center := ⟨0, 0, 0⟩, half_extents := ⟨1, 1, 1⟩ }
      { matrix3 := ⟨⟨1, 0, 0⟩, ⟨0, 1, 0⟩, ⟨0, 0, 1⟩⟩, translation := ⟨0, 0, 0⟩ } = true := by
    norm_num [Frustum.contains_aabb, Aabb.is_in_half_space, HalfSpace.normal,
      HalfSpace.d, Vec4.xyz, Vec3.dot, Vec3.abs, Mat3A.abs, Mat3A.mulVec,
      Affine3A.transform_point3a, List.all_eq_true, List.mem_finRange, Fin.forall_fin_succ]
  exact ⟨hc, contains_aabb_imp_intersects_obb _ _ _ hc⟩

/-! ### Folded minima and maxima, for `Aabb::enclosing` -/

theorem foldl_min_le_init {β : Type} [LinearOrder β] (l : List β) (a : β) :
    l.foldl Min.min a ≤ a := by
  induction l generalizing a with
  | nil => exact le_refl a
  | cons c tl ih => exact le_trans (ih (Min.min a c)) (min_le_left a c)

theorem le_foldl_max_init {β : Type} [LinearOrder β] (l : List β) (a : β) :
    a ≤ l.foldl Max.max a := by
  induction l generalizing a with
  | nil => exact le_refl a
  | cons c tl ih => exact le_trans (le_max_left a c) (ih (Max.max a c))

theorem foldl_min_le {β : Type} [LinearOrder β] (l : List β) (b : β) :
    ∀ a, (b = a ∨ b ∈ l) → l.foldl Min.min a ≤ b := by
  induction l with
  | nil =>
    intro a hb
    rcases hb with hb | hb
    · exact le_of_eq hb.symm
    · exact absurd hb (List.not_mem_nil b)
  | cons c tl ih =>
    intro a hb
    rw [List.foldl_cons]
    rcases hb with hb | hb
    · exact le_trans (le_trans (foldl_min_le_init tl (Min.min a c)) (min_le_left a c))
        (le_of_eq hb.symm)
    · rcases List.mem_cons.mp hb with hb | hb
      · exact le_trans (le_trans (foldl_min_le_init tl (Min.min a c)) (min_le_right a c))
          (le_of_eq hb.symm)
      · exact ih (Min.min a c) (Or.inr hb)

theorem le_foldl_max {β : Type} [LinearOrder β] (l : List β) (b : β) :
    ∀ a, (b = a ∨ b ∈ l) → b ≤ l.foldl Max.max a := by
  induction l with
  | nil =>
    intro a hb
    rcases hb with hb | hb
    · exact le_of_eq hb
    · exact absurd hb (List.not_mem_nil b)
  | cons c tl ih =>
    intro a hb
    rw [List.foldl_cons]
    rcases hb with hb | hb
    · exact le_trans (le_of_eq hb)
        (le_trans (le_max_left a c) (le_foldl_max_init tl (Max.max a c)))
    · rcases List.mem_cons.mp hb with hb | hb
      · exact le_trans (le_of_eq hb)
          (le_trans (le_max_right a c) (le_foldl_max_init tl (Max.max a c)))
      · exact ih (Max.max a c) (Or.inr hb)

theorem foldl_min_attained {β : Type} [LinearOrder β] (l : List β) (a : β) :
    l.foldl Min.min a = a ∨ l.foldl Min.min a ∈ l := by
  induction l generalizing a with
  | nil => exact Or.inl rfl
  | cons c tl ih =>
    rw [List.foldl_cons]
    rcases ih (Min.min a c) with h | h
    · rcases min_choice a c with hm | hm
      · exact Or.inl (h.trans hm)
      · exact Or.inr (List.mem_cons.mpr (Or.inl (h.trans hm)))
    · exact Or.inr (List.mem_cons.mpr (Or.inr h))

theorem foldl_max_attained {β : Type} [LinearOrder β] (l : List β) (a : β) :
    l.foldl Max.max a = a ∨ l.foldl Max.max a ∈ l := by
  induction l generalizing a with
  | nil => exact Or.inl rfl
  | cons c tl ih =>
    rw [List.foldl_cons]
    rcases ih (Max.max a c) with h | h
    · rcases max_choice a c with hm | hm
      · exact Or.inl (h.trans hm)
      · exact Or.inr (List.mem_cons.mpr (Or.inl (h.trans hm)))
    · exact Or.inr (List.mem_cons.mpr (Or.inr h))

/-- Folding commutes with a componentwise projection. -/
theorem foldl_comp {β γ : Type} (g : β → γ) (op : β → β → β) (sop : γ → γ → γ)
    (hcomp : ∀ u v, g (op u v) = sop (g u) (g v)) (l : List β) (a : β) :
    g (l.foldl op a) = (l.map g).foldl sop (g a) := by
  induction l generalizing a with
  | nil => rfl
  | cons c tl ih =>
    rw [List.foldl_cons, List.map_cons, List.foldl_cons, ← hcomp]
    exact ih _

theorem from_min_max_min (mn mx : Vec3 α) : (Aabb.from_min_max mn mx).min = mn := by
  cases mn with
  | mk ax ay az =>
  cases mx with
  | mk bx by' bz =>
  simp only [Aabb.from_min_max, Aabb.min, Vec3.add_def, Vec3.sub_def, Vec3.smul_def]
  congr 1 <;> ring

theorem from_min_max_max (mn mx : Vec3 α) : (Aabb.from_min_max mn mx).max = mx := by
  cases mn with
  | mk ax ay az =>
  cases mx with
  | mk bx by' bz =>
  simp only [Aabb.from_min_max, Aabb.max, Vec3.add_def, Vec3.sub_def, Vec3.smul_def]
  congr 1 <;> ring

/-- C3: `Aabb::enclosing` is `None` exactly on the empty input; on a
non-empty input it returns a box bounding every input point componentwise,
and each component of `min`/`max` is attained by some input point. -/
theorem enclosing_spec (points : List (Vec3 α)) :
    (Aabb.enclosing points = none ↔ points = []) ∧
    (∀ b : Aabb α, Aabb.enclosing points = some b →
      (∀ p ∈ points, Vec3.le b.min p ∧ Vec3.le p b.max) ∧
      (∃ p ∈ points, b.min.x = p.x) ∧ (∃ p ∈ points, b.min.y = p.y) ∧
      (∃ p ∈ points, b.min.z = p.z) ∧ (∃ p ∈ points, b.max.x = p.x) ∧
      (∃ p ∈ points, b.max.y = p.y) ∧ (∃ p ∈ points, b.max.z = p.z)) := by
  cases points with
  | nil =>
    refine ⟨by simp [Aabb.enclosing], ?_⟩
    intro b hb
    simp [Aabb.enclosing] at hb
  | cons p rest =>
    refine ⟨by simp [Aabb.enclosing], ?_⟩
    intro b hb
    simp only [Aabb.enclosing, Option.some.injEq] at hb
    subst hb
    rw [from_min_max_min, from_min_max_max]
    have hminx := foldl_comp Vec3.x Vec3.min Min.min (fun _ _ => rfl) rest p
    have hminy := foldl_comp Vec3.y Vec3.min Min.min (fun _ _ => rfl) rest p
    have hminz := foldl_comp Vec3.z Vec3.min Min.min (fun _ _ => rfl) rest p
    have hmaxx := foldl_comp Vec3.x Vec3.max Max.max (fun _ _ => rfl) rest p
    have hmaxy := foldl_comp Vec3.y Vec3.max Max.max (fun _ _ => rfl) rest p
    have hmaxz := foldl_comp Vec3.z Vec3.max Max.max (fun _ _ => rfl) rest p
    constructor
    · intro q hq
      have hq' : q = p ∨ q ∈ rest := List.mem_cons.mp hq
      have hqx : q.x = p.x ∨ q.x ∈ rest.map Vec3.x := by
        rcases hq' with h | h
        · exact Or.inl (by rw [h])
        · exact Or.inr (List.mem_map_of_mem Vec3.x h)
      have hqy : q.y = p.y ∨ q.y ∈ rest.map Vec3.y := by
        rcases hq' with h | h
        · exact Or.inl (by rw [h])
        · exact Or.inr (List.mem_map_of_mem Vec3.y h)
      have hqz : q.z = p.z ∨ q.z ∈ rest.map Vec3.z := by
        rcases hq' with h | h
        · exact Or.inl (by rw [h])
        · exact Or.inr (List.mem_map_of_mem Vec3.z h)
      constructor
      · exact ⟨hminx ▸ foldl_min_le _ _ _ hqx, hminy ▸ foldl_min_le _ _ _ hqy,
          hminz ▸ foldl_min_le _ _ _ hqz⟩
      · exact ⟨hmaxx ▸ le_foldl_max _ _ _ hqx, hmaxy ▸ le_foldl_max _ _ _ hqy,
          hmaxz ▸ le_foldl_max _ _ _ hqz⟩
    · have tight : ∀ (g : Vec3 α → α) (hg : ∀ u v : Vec3 α, g (Vec3.min u v) = Min.min (g u) (g v)),
          ∃ q ∈ p :: rest, g (rest.foldl Vec3.min p) = g q := by
        intro g hg
        have hcomp := foldl_comp g Vec3.min Min.min hg rest p
        rcases foldl_min_attained (rest.map g) (g p) with h | h
        · exact ⟨p, List.mem_cons_self p rest, by rw [hcomp, h]⟩
        · rcases List.mem_map.mp h with ⟨q, hq, hgq⟩
          exact ⟨q, List.mem_cons_of_mem p hq, by rw [hcomp, hgq]⟩
      have tight2 : ∀ (g : Vec3 α → α) (hg : ∀ u v : Vec3 α, g (Vec3.max u v) = Max.max (g u) (g v)),
          ∃ q ∈ p :: rest, g (rest.foldl Vec3.max p) = g q := by
        intro g hg
        have hcomp := foldl_comp g Vec3.max Max.max hg rest p
        rcases foldl_max_attained (rest.map g) (g p) with h | h
        · exact ⟨p, List.mem_cons_self p rest, by rw [hcomp, h]⟩
        · rcases List.mem_map.mp h with ⟨q, hq, hgq⟩
          exact ⟨q, List.mem_cons_of_mem p hq, by rw [hcomp, hgq]⟩
      exact ⟨tight Vec3.x (fun _ _ => rfl), tight Vec3.y (fun _ _ => rfl),
        tight Vec3.z (fun _ _ => rfl), tight2 Vec3.x (fun _ _ => rfl),
        tight2 Vec3.y (fun _ _ => rfl), tight2 Vec3.z (fun _ _ => rfl)⟩

/-- Concrete check for C3: the box enclosing `{(0,0,0), (2,2,2)}` has center
`(1,1,1)` and half-extents `(1,1,1)`, and bounds both points. -/
theorem enclosing_spec_witness :
    (Aabb.enclosing ([⟨0, 0, 0⟩, ⟨2, 2, 2⟩] : List (Vec3 ℚ)) =
        some (⟨⟨1, 1, 1⟩, ⟨1, 1, 1⟩⟩ : Aabb ℚ)) ∧
    (∀ p ∈ ([⟨0, 0, 0⟩, ⟨2, 2, 2⟩] : List (Vec3 ℚ)),
        Vec3.le (Aabb.min (⟨⟨1, 1, 1⟩, ⟨1, 1, 1⟩⟩ : Aabb ℚ)) p ∧
        Vec3.le p (Aabb.max (⟨⟨1, 1, 1⟩, ⟨1, 1, 1⟩⟩ : Aabb ℚ))) := by
  have hb : Aabb.enclosing ([⟨0, 0, 0⟩, ⟨2, 2, 2⟩] : List (Vec3 ℚ)) =
      some (⟨⟨1, 1, 1⟩, ⟨1, 1, 1⟩⟩ : Aabb ℚ) := by
    norm_num [Aabb.enclosing, Aabb.from_min_max, Vec3.min, Vec3.max, min_def, max_def]
  exact ⟨hb, ((enclosing_spec _).2 _ hb).1⟩

/-! ### Normalization and frustum extraction, over `ℝ` -/

/-- C7: `HalfSpace::new` scales all four components by the reciprocal length
of the `xyz` part; the stored normal (returned by `normal()`) has unit
length for every input with non-degenerate normal part. -/
theorem halfspace_new_normalizes (v : Vec4 ℝ) (h : Vec3.length v.xyz ≠ 0) :
    (HalfSpace.new v).normal_d = v.smul (Vec3.length v.xyz)⁻¹ ∧
    (HalfSpace.new v).normal = Vec3.smul (Vec3.length v.xyz)⁻¹ v.xyz ∧
    Vec3.length (HalfSpace.new v).normal = 1 := by
  refine ⟨rfl, ?_, ?_⟩
  · simp only [HalfSpace.new, HalfSpace.normal, Vec4.smul, Vec4.xyz, Vec3.smul]
    congr 1 <;> ring
  · have hnn : 0 ≤ Vec3.length v.xyz := Real.sqrt_nonneg _
    have hpos : 0 < Vec3.length v.xyz := lt_of_le_of_ne hnn (Ne.symm h)
    have hSnn : 0 ≤ v.xyz.dot v.xyz := by
      simp only [Vec3.dot, Vec4.xyz]
      nlinarith [sq_nonneg v.x, sq_nonneg v.y, sq_nonneg v.z]
    have hS : v.xyz.dot v.xyz = Vec3.length v.xyz ^ 2 := by
      rw [Vec3.length, Real.sq_sqrt hSnn]
    have hdot : (HalfSpace.new v).normal.dot (HalfSpace.new v).normal =
        (v.xyz.dot v.xyz) * ((Vec3.length v.xyz)⁻¹) ^ 2 := by
      simp only [HalfSpace.new, HalfSpace.normal, Vec4.smul, Vec4.xyz, Vec3.dot]
      ring
    rw [Vec3.length, hdot, hS,
      show Vec3.length v.xyz ^ 2 * ((Vec3.length v.xyz)⁻¹) ^ 2 =
        (Vec3.length v.xyz * (Vec3.length v.xyz)⁻¹) ^ 2 by ring,
      mul_inv_cancel₀ (ne_of_gt hpos)]
    norm_num

/-- Concrete check for C7: the input `(0,3,4,10)` has normal part of length
5, and the constructed half-space's normal has unit length. -/
theorem halfspace_new_normalizes_witness :
    (Vec3.length (Vec4.xyz (⟨0, 3, 4, 10⟩ : Vec4 ℝ)) ≠ 0) ∧
    Vec3.length (HalfSpace.new (⟨0, 3, 4, 10⟩ : Vec4 ℝ)).normal = 1 := by
  have hne : Vec3.length (Vec4.xyz (⟨0, 3, 4, 10⟩ : Vec4 ℝ)) ≠ 0 := by
    have hp : (0 : ℝ) < Vec3.length (Vec4.xyz (⟨0, 3, 4, 10⟩ : Vec4 ℝ)) := by
      rw [Vec3.length]
      apply Real.sqrt_pos.mpr
      norm_num [Vec3.dot, Vec4.xyz]
    exact ne_of_gt hp
  exact ⟨hne, (halfspace_new_normalizes ⟨0, 3, 4, 10⟩ hne).2.2⟩

/-- The six stored half-spaces of `from_clip_from_world`, by definitional
unfolding: indices 0..3 are `row3 ± row0`, `row3 ± row1`, index 4 (near) is
`row3 - row2`, and index 5 (far) is `row2` alone. -/
theorem from_clip_rows_aux (m : Mat4 ℝ) :
    (Frustum.from_clip_from_world m).half_spaces 0 = HalfSpace.new (m.row 3 + m.row 0) ∧
    (Frustum.from_clip_from_world m).half_spaces 1 = HalfSpace.new (m.row 3 - m.row 0) ∧
    (Frustum.from_clip_from_world m).half_spaces 2 = HalfSpace.new (m.row 3 + m.row 1) ∧
    (Frustum.from_clip_from_world m).half_spaces 3 = HalfSpace.new (m.row 3 - m.row 1) ∧
    (Frustum.from_clip_from_world m).half_spaces 4 = HalfSpace.new (m.row 3 - m.row 2) ∧
    (Frustum.from_clip_from_world m).half_spaces 5 = HalfSpace.new (m.row 2) :=
  ⟨rfl, rfl, rfl, rfl, rfl, rfl⟩

/-- C1 counterexample: for the matrix with rows 0,1 zero, row2 = (1,0,0,0)
and row3 = (0,0,0,1), the stored near half-space (index 4) is not
`HalfSpace::new(row3 + row2)` and the stored far half-space (index 5) is not
`HalfSpace::new(row3 - row2)`, contrary to the claim. -/
theorem from_clip_from_world_counterexample :
    ¬ ((Frustum.from_clip_from_world
          (⟨⟨0, 0, 0, 0⟩, ⟨0, 0, 0, 0⟩, ⟨1, 0, 0, 0⟩, ⟨0, 0, 0, 1⟩⟩ : Mat4 ℝ)).half_spaces 4 =
        HalfSpace.new
          ((⟨⟨0, 0, 0, 0⟩, ⟨0, 0, 0, 0⟩, ⟨1, 0, 0, 0⟩, ⟨0, 0, 0, 1⟩⟩ : Mat4 ℝ).row 3 +
            (⟨⟨0, 0, 0, 0⟩, ⟨0, 0, 0, 0⟩, ⟨1, 0, 0, 0⟩, ⟨0, 0, 0, 1⟩⟩ : Mat4 ℝ).row 2)) ∧
    ¬ ((Frustum.from_clip_from_world
          (⟨⟨0, 0, 0, 0⟩, ⟨0, 0, 0, 0⟩, ⟨1, 0, 0, 0⟩, ⟨0, 0, 0, 1⟩⟩ : Mat4 ℝ)).half_spaces 5 =
        HalfSpace.new
          ((⟨⟨0, 0, 0, 0⟩, ⟨0, 0, 0, 0⟩, ⟨1, 0, 0, 0⟩, ⟨0, 0, 0, 1⟩⟩ : Mat4 ℝ).row 3 -
            (⟨⟨0, 0, 0, 0⟩, ⟨0, 0, 0, 0⟩, ⟨1, 0, 0, 0⟩, ⟨0, 0, 0, 1⟩⟩ : Mat4 ℝ).row 2)) := by
  have hnew : ∀ x y z w : ℝ, x * x + y * y + z * z = 1 →
      HalfSpace.new (⟨x, y, z, w⟩ : Vec4 ℝ) = ⟨⟨x, y, z, w⟩⟩ := by
    intro x y z w hxyz
    simp only [HalfSpace.new, Vec3.length, Vec4.xyz, Vec3.dot, Vec4.smul]
    rw [hxyz, Real.sqrt_one, inv_one]
    simp only [mul_one]
  have hsub : (⟨⟨0, 0, 0, 0⟩, ⟨0, 0, 0, 0⟩, ⟨1, 0, 0, 0⟩, ⟨0, 0, 0, 1⟩⟩ : Mat4 ℝ).row 3 -
      (⟨⟨0, 0, 0, 0⟩, ⟨0, 0, 0, 0⟩, ⟨1, 0, 0, 0⟩, ⟨0, 0, 0, 1⟩⟩ : Mat4 ℝ).row 2 =
      (⟨-1, 0, 0, 1⟩ : Vec4 ℝ) := by
    show Vec4.sub ⟨0, 0, 0, 1⟩ ⟨1, 0, 0, 0⟩ = (⟨-1, 0, 0, 1⟩ : Vec4 ℝ)
    simp only [Vec4.sub, Vec4.mk.injEq]
    norm_num
  have hadd : (⟨⟨0, 0, 0, 0⟩, ⟨0, 0, 0, 0⟩, ⟨1, 0, 0, 0⟩, ⟨0, 0, 0, 1⟩⟩ : Mat4 ℝ).row 3 +
      (⟨⟨0, 0, 0, 0⟩, ⟨0, 0, 0, 0⟩, ⟨1, 0, 0, 0⟩, ⟨0, 0, 0, 1⟩⟩ : Mat4 ℝ).row 2 =
      (⟨1, 0, 0, 1⟩ : Vec4 ℝ) := by
    show Vec4.add ⟨0, 0, 0, 1⟩ ⟨1, 0, 0, 0⟩ = (⟨1, 0, 0, 1⟩ : Vec4 ℝ)
    simp only [Vec4.add, Vec4.mk.injEq]
    norm_num
  have h4 := (from_clip_rows_aux
    (⟨⟨0, 0, 0, 0⟩, ⟨0, 0, 0, 0⟩, ⟨1, 0, 0, 0⟩, ⟨0, 0, 0, 1⟩⟩ : Mat4 ℝ)).2.2.2.2.1
  have h5 := (from_clip_rows_aux
    (⟨⟨0, 0, 0, 0⟩, ⟨0, 0, 0, 0⟩, ⟨1, 0, 0, 0⟩, ⟨0, 0, 0, 1⟩⟩ : Mat4 ℝ)).2.2.2.2.2
  have hrow2 : (⟨⟨0, 0, 0, 0⟩, ⟨0, 0, 0, 0⟩, ⟨1, 0, 0, 0⟩, ⟨0, 0, 0, 1⟩⟩ : Mat4 ℝ).row 2 =
      (⟨1, 0, 0, 0⟩ : Vec4 ℝ) := rfl
  rw [hsub] at h4
  rw [hrow2] at h5
  constructor
  · rw [h4, hadd, hnew (-1) 0 0 1 (by norm_num), hnew 1 0 0 1 (by norm_num)]
    simp only [HalfSpace.mk.injEq, Vec4.mk.injEq, not_and]
    intro hx
    norm_num at hx
  · rw [h5, hsub, hnew 1 0 0 0 (by norm_num), hnew (-1) 0 0 1 (by norm_num)]
    simp only [HalfSpace.mk.injEq, Vec4.mk.injEq, not_and]
    intro hx
    norm_num at hx

/-- C1 (amended): `from_clip_from_world` stores, in order,
`new(row3+row0)`, `new(row3-row0)`, `new(row3+row1)`, `new(row3-row1)`,
`new(row3-row2)` (near), and `new(row2)` (far). -/
theorem from_clip_from_world_rows (m : Mat4 ℝ) :
    (Frustum.from_clip_from_world m).half_spaces 0 = HalfSpace.new (m.row 3 + m.row 0) ∧
    (Frustum.from_clip_from_world m).half_spaces 1 = HalfSpace.new (m.row 3 - m.row 0) ∧
    (Frustum.from_clip_from_world m).half_spaces 2 = HalfSpace.new (m.row 3 + m.row 1) ∧
    (Frustum.from_clip_from_world m).half_spaces 3 = HalfSpace.new (m.row 3 - m.row 1) ∧
    (Frustum.from_clip_from_world m).half_spaces 4 = HalfSpace.new (m.row 3 - m.row 2) ∧
    (Frustum.from_clip_from_world m).half_spaces 5 = HalfSpace.new (m.row 2) :=
  ⟨rfl, rfl, rfl, rfl, rfl, rfl⟩

/-- C8: `Sphere::intersects_obb` returns true exactly when the distance `d`
from the sphere center to the world-space box center is less than the sphere
radius plus the box's relative radius along the unit direction `v / d`. -/
theorem sphere_intersects_obb_spec (s : Sphere ℝ) (a : Aabb ℝ) (t : Affine3A ℝ)
    (h : Vec3.length (t.transform_point3a a.center - s.center) ≠ 0) :
    (s.intersects_obb a t = true ↔
      Vec3.length (t.transform_point3a a.center - s.center) <
        s.radius + a.relative_radius
          ((t.transform_point3a a.center - s.center).div_scalar
            (Vec3.length (t.transform_point3a a.center - s.center))) t.matrix3) := by
  simp only [Sphere.intersects_obb, decide_eq_true_eq]

/-- Concrete check for C8: a unit sphere at the origin against the unit box
centered at `(3,4,0)` under the identity transform; the distance is 5. -/
theorem sphere_intersects_obb_spec_witness :
    (Vec3.length
        (Affine3A.transform_point3a
            ({ matrix3 := ⟨⟨1, 0, 0⟩, ⟨0, 1, 0⟩, ⟨0, 0, 1⟩⟩,
               translation := ⟨0, 0, 0⟩ } : Affine3A ℝ)
            (⟨3, 4, 0⟩ : Vec3 ℝ) - (⟨0, 0, 0⟩ : Vec3 ℝ)) ≠ 0) ∧
    (Sphere.intersects_obb ⟨⟨0, 0, 0⟩, 1⟩ ⟨⟨3, 4, 0⟩, ⟨1, 1, 1⟩⟩
        ({ matrix3 := ⟨⟨1, 0, 0⟩, ⟨0, 1, 0⟩, ⟨0, 0, 1⟩⟩,
           translation := ⟨0, 0, 0⟩ } : Affine3A ℝ) = true ↔
      Vec3.length
          (Affine3A.transform_point3a
              ({ matrix3 := ⟨⟨1, 0, 0⟩, ⟨0, 1, 0⟩, ⟨0, 0, 1⟩⟩,
                 translation := ⟨0, 0, 0⟩ } : Affine3A ℝ)
              (⟨3, 4, 0⟩ : Vec3 ℝ) - (⟨0, 0, 0⟩ : Vec3 ℝ)) <
        1 + Aabb.relative_radius ⟨⟨3, 4, 0⟩, ⟨1, 1, 1⟩⟩
          (Vec3.div_scalar
            (Affine3A.transform_point3a
                ({ matrix3 := ⟨⟨1, 0, 0⟩, ⟨0, 1, 0⟩, ⟨0, 0, 1⟩⟩,
                   translation := ⟨0, 0, 0⟩ } : Affine3A ℝ)
                (⟨3, 4, 0⟩ : Vec3 ℝ) - (⟨0, 0, 0⟩ : Vec3 ℝ))
            (Vec3.length
              (Affine3A.transform_point3a
                  ({ matrix3 := ⟨⟨1, 0, 0⟩, ⟨0, 1, 0⟩, ⟨0, 0, 1⟩⟩,
                     translation := ⟨0, 0, 0⟩ } : Affine3A ℝ)
                  (⟨3, 4, 0⟩ : Vec3 ℝ) - (⟨0, 0, 0⟩ : Vec3 ℝ))))
          ⟨⟨1, 0, 0⟩, ⟨0, 1, 0⟩, ⟨0, 0, 1⟩⟩) := by
  have hne : Vec3.length
      (Affine3A.transform_point3a
          ({ matrix3 := ⟨⟨1, 0, 0⟩, ⟨0, 1, 0⟩, ⟨0, 0, 1⟩⟩,
             translation := ⟨0, 0, 0⟩ } : Affine3A ℝ)
          (⟨3, 4, 0⟩ : Vec3 ℝ) - (⟨0, 0, 0⟩ : Vec3 ℝ)) ≠ 0 := by
    have hp : (0 : ℝ) < Vec3.length
        (Affine3A.transform_point3a
            ({ matrix3 := ⟨⟨1, 0, 0⟩, ⟨0, 1, 0⟩, ⟨0, 0, 1⟩⟩,
               translation := ⟨0, 0, 0⟩ } : Affine3A ℝ)
            (⟨3, 4, 0⟩ : Vec3 ℝ) - (⟨0, 0, 0⟩ : Vec3 ℝ)) := by
      rw [Vec3.length]
      apply Real.sqrt_pos.mpr
      norm_num [Vec3.dot, Affine3A.transform_point3a, Mat3A.mulVec]
    exact ne_of_gt hp
  exact ⟨hne, sphere_intersects_obb_spec ⟨⟨0, 0, 0⟩, 1⟩ ⟨⟨3, 4, 0⟩, ⟨1, 1, 1⟩⟩ _ hne⟩

/-! ### IEEE non-finite model of `Sphere::intersects_obb`

The exact-real model above cannot express the `f32` behaviour at `d = 0`
(`0.0 / 0.0` is NaN, and NaN comparisons are false). `F32` models `f32`
with exact finite arithmetic plus IEEE rules for the infinities and NaN
(signed zeros are not distinguished); `SphereF.intersects_obb` mirrors the
same Rust function over this carrier. -/

/-- An idealized `f32`: an exact real, an infinity, or NaN. -/
inductive F32 where
  | finite : ℝ → F32
  | posInf : F32
  | negInf : F32
  | nan : F32

/-- IEEE addition on idealized `f32` values. -/
noncomputable def F32.add : F32 → F32 → F32
  | nan, _ => nan
  | _, nan => nan
  | finite a, finite b => finite (a + b)
  | posInf, negInf => nan
  | negInf, posInf => nan
  | posInf, _ => posInf
  | _, posInf => posInf
  | negInf, _ => negInf
  | _, negInf => negInf

/-- IEEE negation on idealized `f32` values. -/
noncomputable def F32.neg : F32 → F32
  | finite a => finite (-a)
  | posInf => negInf
  | negInf => posInf
  | nan => nan

/-- IEEE subtraction, as addition of the negation. -/
noncomputable def F32.sub (a b : F32) : F32 :=
  a.add b.neg

/-- IEEE multiplication on idealized `f32` values (`0 * ∞` is NaN). -/
noncomputable def F32.mul : F32 → F32 → F32
  | nan, _ => nan
  | _, nan => nan
  | finite a, finite b => finite (a * b)
  | posInf, posInf => posInf
  | posInf, negInf => negInf
  | negInf, posInf => negInf
  | negInf, negInf => posInf
  | posInf, finite b => if 0 < b then posInf else if b < 0 then negInf else nan
  | finite a, posInf => if 0 < a then posInf else if a < 0 then negInf else nan
  | negInf, finite b => if 0 < b then negInf else if b < 0 then posInf else nan
  | finite a, negInf => if 0 < a then negInf else if a < 0 then posInf else nan

/-- IEEE division on idealized `f32` values: `0 / 0` is NaN, a nonzero
finite value over zero is a signed infinity, `∞ / ∞` is NaN. -/
noncomputable def F32.div : F32 → F32 → F32
  | nan, _ => nan
  | _, nan => nan
  | finite a, finite b =>
      if b = 0 then (if a = 0 then nan else if 0 < a then posInf else negInf)
      else finite (a / b)
  | posInf, posInf => nan
  | posInf, negInf => nan
  | negInf, posInf => nan
  | negInf, negInf => nan
  | posInf, finite b => if 0 ≤ b then posInf else negInf
  | negInf, finite b => if 0 ≤ b then negInf else posInf
  | finite _, posInf => finite 0
  | finite _, negInf => finite 0

/-- IEEE absolute value on idealized `f32` values. -/
noncomputable def F32.abs : F32 → F32
  | finite a => finite |a|
  | nan => nan
  | _ => posInf

/-- IEEE square root on idealized `f32` values (negative inputs give NaN). -/
noncomputable def F32.sqrt : F32 → F32
  | nan => nan
  | negInf => nan
  | posInf => posInf
  | finite a => if a < 0 then nan else finite (Real.sqrt a)

/-- IEEE `<` on idealized `f32` values: any comparison with NaN is false. -/
noncomputable def F32.lt : F32 → F32 → Bool
  | nan, _ => false
  | _, nan => false
  | finite a, finite b => decide (a < b)
  | posInf, posInf => false
  | negInf, negInf => false
  | negInf, _ => true
  | _, posInf => true
  | posInf, _ => false
  | _, negInf => false

/-- `glam::Vec3A` over idealized `f32` values. -/
structure Vec3F where
  x : F32
  y : F32
  z : F32

/-- Componentwise subtraction. -/
noncomputable def Vec3F.sub (a b : Vec3F) : Vec3F :=
  ⟨a.x.sub b.x, a.y.sub b.y, a.z.sub b.z⟩

/-- Componentwise addition. -/
noncomputable def Vec3F.add (a b : Vec3F) : Vec3F :=
  ⟨a.x.add b.x, a.y.add b.y, a.z.add b.z⟩

/-- Scalar multiplication. -/
noncomputable def Vec3F.smul (c : F32) (a : Vec3F) : Vec3F :=
  ⟨c.mul a.x, c.mul a.y, c.mul a.z⟩

/-- Dot product, left-associated as in the source. -/
noncomputable def Vec3F.dot (a b : Vec3F) : F32 :=
  ((a.x.mul b.x).add (a.y.mul b.y)).add (a.z.mul b.z)

/-- Componentwise absolute value. -/
noncomputable def Vec3F.abs (a : Vec3F) : Vec3F :=
  ⟨a.x.abs, a.y.abs, a.z.abs⟩

/-- `Vec3A::length` over idealized `f32` values. -/
noncomputable def Vec3F.length (v : Vec3F) : F32 :=
  (v.dot v).sqrt

/-- Componentwise division by a scalar, `v / d`. -/
noncomputable def Vec3F.div_scalar (v : Vec3F) (d : F32) : Vec3F :=
  ⟨v.x.div d, v.y.div d, v.z.div d⟩

/-- `glam::Mat3A` over idealized `f32` values. -/
structure Mat3AF where
  x_axis : Vec3F
  y_axis : Vec3F
  z_axis : Vec3F

/-- Matrix–vector product. -/
noncomputable def Mat3AF.mulVec (m : Mat3AF) (v : Vec3F) : Vec3F :=
  ((Vec3F.smul v.x m.x_axis).add (Vec3F.smul v.y m.y_axis)).add (Vec3F.smul v.z m.z_axis)

/-- `glam::Affine3A` over idealized `f32` values. -/
structure Affine3AF where
  matrix3 : Mat3AF
  translation : Vec3F

/-- `Affine3A::transform_point3a` over idealized `f32` values. -/
noncomputable def Affine3AF.transform_point3a (t : Affine3AF) (p : Vec3F) : Vec3F :=
  (t.matrix3.mulVec p).add t.translation

/-- `Aabb` over idealized `f32` values. -/
structure AabbF where
  center : Vec3F
  half_extents : Vec3F

/-- `Aabb::relative_radius` over idealized `f32` values. -/
noncomputable def AabbF.relative_radius (a : AabbF) (p_normal : Vec3F) (world_from_local : Mat3AF) : F32 :=
  (Vec3F.abs ⟨p_normal.dot world_from_local.x_axis, p_normal.dot world_from_local.y_axis,
    p_normal.dot world_from_local.z_axis⟩).dot a.half_extents

/-- `Sphere` over idealized `f32` values. -/
structure SphereF where
  center : Vec3F
  radius : F32

/-- `Sphere::intersects_obb` over idealized `f32` values: the same
computation as `Sphere.intersects_obb`, with IEEE non-finite propagation. -/
noncomputable def SphereF.intersects_obb (s : SphereF) (aabb : AabbF)
    (world_from_local : Affine3AF) : Bool :=
  let aabb_center_world := world_from_local.transform_point3a aabb.center
  let v := aabb_center_world.sub s.center
  let d := v.length
  let relative_radius := aabb.relative_radius (v.div_scalar d) world_from_local.matrix3
  F32.lt d (s.radius.add relative_radius)

/-! ### NaN-propagation lemmas -/

theorem F32.lt_nan (x : F32) : F32.lt x F32.nan = false := by
  cases x <;> rfl

theorem F32.add_nan (x : F32) : x.add F32.nan = F32.nan := by
  cases x <;> rfl

theorem F32.nan_add (x : F32) : F32.nan.add x = F32.nan := by
  cases x <;> rfl

theorem F32.nan_mul (x : F32) : F32.nan.mul x = F32.nan := by
  cases x <;> rfl

theorem F32.mul_nan (x : F32) : x.mul F32.nan = F32.nan := by
  cases x <;> rfl

theorem F32.abs_nan : F32.nan.abs = F32.nan := rfl

/-- Subtracting any value from itself gives exact zero or NaN. -/
theorem F32.sub_self_zn (x : F32) :
    x.sub x = F32.finite 0 ∨ x.sub x = F32.nan := by
  cases x with
  | finite a =>
    left
    show F32.finite (a + -a) = F32.finite 0
    rw [add_neg_cancel]
  | posInf => right; rfl
  | negInf => right; rfl
  | nan => right; rfl

theorem F32.mul_zn {a b : F32} (ha : a = F32.finite 0 ∨ a = F32.nan)
    (hb : b = F32.finite 0 ∨ b = F32.nan) :
    a.mul b = F32.finite 0 ∨ a.mul b = F32.nan := by
  rcases ha with ha | ha <;> rcases hb with hb | hb <;> subst ha <;> subst hb
  · left
    show F32.finite (0 * 0) = F32.finite 0
    rw [mul_zero]
  · right; rfl
  · right; rfl
  · right; rfl

theorem F32.add_zn {a b : F32} (ha : a = F32.finite 0 ∨ a = F32.nan)
    (hb : b = F32.finite 0 ∨ b = F32.nan) :
    a.add b = F32.finite 0 ∨ a.add b = F32.nan := by
  rcases ha with ha | ha <;> rcases hb with hb | hb <;> subst ha <;> subst hb
  · left
    show F32.finite (0 + 0) = F32.finite 0
    rw [add_zero]
  · right; rfl
  · right; rfl
  · right; rfl

theorem F32.sqrt_zn {a : F32} (ha : a = F32.finite 0 ∨ a = F32.nan) :
    a.sqrt = F32.finite 0 ∨ a.sqrt = F32.nan := by
  rcases ha with ha | ha <;> subst ha
  · left
    show (if (0 : ℝ) < 0 then F32.nan else F32.finite (Real.sqrt 0)) = F32.finite 0
    rw [if_neg (lt_irrefl (0 : ℝ)), Real.sqrt_zero]
  · right; rfl

/-- Dividing zero-or-NaN by zero-or-NaN always gives NaN
(`0/0` is NaN and NaN propagates). -/
theorem F32.div_zn_nan {a d : F32} (ha : a = F32.finite 0 ∨ a = F32.nan)
    (hd : d = F32.finite 0 ∨ d = F32.nan) :
    a.div d = F32.nan := by
  rcases ha with ha | ha <;> rcases hd with hd | hd <;> subst ha <;> subst hd
  · show (if (0 : ℝ) = 0 then (if (0 : ℝ) = 0 then F32.nan else
        if (0 : ℝ) < 0 then F32.posInf else F32.negInf) else F32.finite (0 / 0)) = F32.nan
    rw [if_pos rfl, if_pos rfl]
  · rfl
  · rfl
  · rfl

/-- A relative radius taken along an all-NaN direction is NaN. -/
theorem AabbF.relative_radius_nan (a : AabbF) (m : Mat3AF) (p : Vec3F)
    (hx : p.x = F32.nan) (hy : p.y = F32.nan) (hz : p.z = F32.nan) :
    a.relative_radius p m = F32.nan := by
  have hdot : ∀ w : Vec3F, p.dot w = F32.nan := by
    intro w
    show ((p.x.mul w.x).add (p.y.mul w.y)).add (p.z.mul w.z) = F32.nan
    rw [hx, hy, hz, F32.nan_mul, F32.nan_mul, F32.nan_mul, F32.nan_add, F32.nan_add]
  show (Vec3F.abs ⟨p.dot m.x_axis, p.dot m.y_axis, p.dot m.z_axis⟩).dot a.half_extents = F32.nan
  rw [hdot, hdot, hdot]
  show ((F32.nan.abs.mul a.half_extents.x).add (F32.nan.abs.mul a.half_extents.y)).add
      (F32.nan.abs.mul a.half_extents.z) = F32.nan
  rw [F32.abs_nan, F32.nan_mul, F32.nan_mul, F32.nan_mul, F32.nan_add, F32.nan_add]

/-- C10: in the IEEE model, whenever the world-transformed box center
coincides exactly with the sphere center, the zero-over-zero division makes
the direction all NaN, the relative radius and the comparison's right-hand
side become NaN, and `Sphere::intersects_obb` returns false for every box,
transform and radius. -/
theorem sphere_intersects_obb_nan_false (s : SphereF) (a : AabbF) (t : Affine3AF)
    (h : t.transform_point3a a.center = s.center) :
    SphereF.intersects_obb s a t = false := by
  simp only [SphereF.intersects_obb, h]
  have hvx : (s.center.sub s.center).x = F32.finite 0 ∨
      (s.center.sub s.center).x = F32.nan := F32.sub_self_zn s.center.x
  have hvy : (s.center.sub s.center).y = F32.finite 0 ∨
      (s.center.sub s.center).y = F32.nan := F32.sub_self_zn s.center.y
  have hvz : (s.center.sub s.center).z = F32.finite 0 ∨
      (s.center.sub s.center).z = F32.nan := F32.sub_self_zn s.center.z
  have hd : (s.center.sub s.center).length = F32.finite 0 ∨
      (s.center.sub s.center).length = F32.nan :=
    F32.sqrt_zn (F32.add_zn (F32.add_zn (F32.mul_zn hvx hvx) (F32.mul_zn hvy hvy))
      (F32.mul_zn hvz hvz))
  have hrr : a.relative_radius
      ((s.center.sub s.center).div_scalar (s.center.sub s.center).length) t.matrix3 =
      F32.nan :=
    AabbF.relative_radius_nan a t.matrix3 _
      (F32.div_zn_nan hvx hd) (F32.div_zn_nan hvy hd) (F32.div_zn_nan hvz hd)
  rw [hrr, F32.add_nan, F32.lt_nan]

/-- Concrete check for C10: the degenerate configuration with everything at
the origin under the identity transform returns false. -/
theorem sphere_intersects_obb_nan_false_witness :
    (Affine3AF.transform_point3a
        ⟨⟨⟨F32.finite 1, F32.finite 0, F32.finite 0⟩,
          ⟨F32.finite 0, F32.finite 1, F32.finite 0⟩,
          ⟨F32.finite 0, F32.finite 0, F32.finite 1⟩⟩,
          ⟨F32.finite 0, F32.finite 0, F32.finite 0⟩⟩
        ⟨F32.finite 0, F32.finite 0, F32.finite 0⟩ =
      ⟨F32.finite 0, F32.finite 0, F32.finite 0⟩) ∧
    SphereF.intersects_obb
      ⟨⟨F32.finite 0, F32.finite 0, F32.finite 0⟩, F32.finite 1⟩
      ⟨⟨F32.finite 0, F32.finite 0, F32.finite 0⟩,
        ⟨F32.finite 1, F32.finite 1, F32.finite 1⟩⟩
      ⟨⟨⟨F32.finite 1, F32.finite 0, F32.finite 0⟩,
        ⟨F32.finite 0, F32.finite 1, F32.finite 0⟩,
        ⟨F32.finite 0, F32.finite 0, F32.finite 1⟩⟩,
        ⟨F32.finite 0, F32.finite 0, F32.finite 0⟩⟩ = false := by
  have ht : Affine3AF.transform_point3a
      ⟨⟨⟨F32.finite 1, F32.finite 0, F32.finite 0⟩,
        ⟨F32.finite 0, F32.finite 1, F32.finite 0⟩,
        ⟨F32.finite 0, F32.finite 0, F32.finite 1⟩⟩,
        ⟨F32.finite 0, F32.finite 0, F32.finite 0⟩⟩
      ⟨F32.finite 0, F32.finite 0, F32.finite 0⟩ =
      ⟨F32.finite 0, F32.finite 0, F32.finite 0⟩ := by
    show Vec3F.mk
        (F32.finite (0 * 1 + 0 * 0 + 0 * 0 + 0))
        (F32.finite (0 * 0 + 0 * 1 + 0 * 0 + 0))
        (F32.finite (0 * 0 + 0 * 0 + 0 * 1 + 0)) =
      ⟨F32.finite 0, F32.finite 0, F32.finite 0⟩
    norm_num
  exact ⟨ht, sphere_intersects_obb_nan_false _ _ _ ht⟩

end Bevy
